import Mathlib

/-!
Verification of `sql-splitter` (src/src/main.rs): a shallow embedding of the
statement tokenizer (`SqlSplitter::split_statements`), the greedy batch
planner (the loop in `SqlSplitter::split_file`), the batch serializer
(`SqlSplitter::write_sql_file`) and the top-level error handling in `main`,
together with theorems settling the specification's claims.

Strings are modelled as `List Char` (Rust iterates `content.chars()`, i.e.
Unicode scalar values); byte sizes (`str::as_bytes().len()`) are modelled as
the sum of the UTF-8 sizes of the characters.
-/

namespace SqlSplitter

/-- Rust `char::is_whitespace`: the Unicode `White_Space` property.
Used by `str::trim`. -/
def isRustWhitespace (c : Char) : Bool :=
  let n := c.toNat
  (0x09 ≤ n && n ≤ 0x0D) || n = 0x20 || n = 0x85 || n = 0xA0 || n = 0x1680 ||
  (0x2000 ≤ n && n ≤ 0x200A) || n = 0x2028 || n = 0x2029 || n = 0x202F ||
  n = 0x205F || n = 0x3000

/-- Rust `str::trim`: remove leading and trailing whitespace. -/
def trimChars (l : List Char) : List Char :=
  ((l.dropWhile isRustWhitespace).reverse.dropWhile isRustWhitespace).reverse

/-- Rust `s.as_bytes().len()` for the string with scalar values `l`:
sum of the UTF-8 encoding sizes of its characters. -/
def utf8Len (l : List Char) : Nat :=
  (l.map Char.utf8Size).sum

/-- The tokenizer's scanning state in `split_statements`: the statements
emitted so far, the buffer `current_statement`, and the two flags
`in_string` and `escape_next`. -/
structure TokState where
  stmts : List (List Char)
  buf : List Char
  inString : Bool
  escapeNext : Bool
deriving DecidableEq, Repr

/-- One iteration of the `for c in content.chars()` loop of
`split_statements`, mirroring the Rust `match` arms in order:
`'\\' if in_string`, `'\'' if !escape_next`, `';' if !in_string`,
and the default arm (which clears `escape_next` on a quote). -/
def tokStep (st : TokState) (c : Char) : TokState :=
  if c = '\\' && st.inString then
    { st with buf := st.buf ++ [c], escapeNext := !st.escapeNext }
  else if c = '\'' && !st.escapeNext then
    { st with buf := st.buf ++ [c], inString := !st.inString }
  else if c = ';' && !st.inString then
    let t := trimChars st.buf
    { st with stmts := st.stmts ++ (if t.isEmpty then [] else [t]), buf := [] }
  else
    { st with buf := st.buf ++ [c],
              escapeNext := if c = '\'' then false else st.escapeNext }

/-- The state after scanning the whole input. -/
def tokRun (l : List Char) : TokState :=
  l.foldl tokStep ⟨[], [], false, false⟩

/-- `SqlSplitter::split_statements`: scan the input, then flush the trimmed
final buffer if non-empty. -/
def splitStatements (l : List Char) : List (List Char) :=
  let st := tokRun l
  let fin := trimChars st.buf
  st.stmts ++ (if fin.isEmpty then [] else [fin])

/-- `split_statements` at `String` type, for concrete test inputs. -/
def splitStatementsStr (s : String) : List String :=
  (splitStatements s.data).map fun l => ⟨l⟩

/-- The planner's loop state in `split_file`: closed batches, the current
batch and its accumulated size. -/
structure PlanState where
  batches : List (List (List Char))
  cur : List (List Char)
  curSize : Nat
deriving DecidableEq, Repr

/-- One iteration of the `for statement in statements` loop of `split_file`:
re-trim the statement, compute `statement_size = len + 1`, close the current
batch when it would overflow and is non-empty, then append. -/
def planStep (maxSize : Nat) (st : PlanState) (stmt0 : List Char) : PlanState :=
  let stmt := trimChars stmt0
  let statementSize := utf8Len stmt + 1
  let st1 :=
    if st.curSize + statementSize > maxSize && !st.cur.isEmpty then
      { batches := st.batches ++ [st.cur], cur := [], curSize := 0 }
    else st
  { batches := st1.batches, cur := st1.cur ++ [stmt],
    curSize := st1.curSize + statementSize }

/-- After the loop, `split_file` pushes the final batch if non-empty. -/
def planFinalize (st : PlanState) : List (List (List Char)) :=
  if st.cur.isEmpty then st.batches else st.batches ++ [st.cur]

/-- The batch planner of `split_file` (lines 119-139): greedy bin-packing
in arrival order with budget `maxSize = max_size_kb * 1024`. -/
def planBatches (stmts : List (List Char)) (maxSize : Nat) :
    List (List (List Char)) :=
  planFinalize (stmts.foldl (planStep maxSize) ⟨[], [], 0⟩)

/-- The size the planner accounts to a statement: bytes plus one terminator. -/
def stmtSize (s : List Char) : Nat := utf8Len s + 1

/-- The size the planner accounts to a batch: the sum of its statements'
byte lengths plus one terminator byte each (no separators). -/
def planSize (b : List (List Char)) : Nat := (b.map stmtSize).sum

/-- `SqlSplitter::write_sql_file`'s serialization of one batch: statements
joined by a blank line (`"\n\n"`), each followed by `";"`. -/
def serializeBatch : List (List Char) → List Char
  | [] => []
  | [s] => s ++ [';']
  | s :: rest => s ++ ';' :: '\n' :: '\n' :: serializeBatch rest

/-- The abstract result of one Rust `std::io` operation. -/
structure IOError where
  msg : String
deriving DecidableEq

/-- The filesystem operations `split_file` performs, abstracted to their
results: `fs::create_dir_all`, `fs::read_to_string`, and the write of the
`i`-th batch by `write_sql_file`. -/
structure FsEnv where
  createDirAll : Except IOError Unit
  readToString : Except IOError String
  writeFile : Nat → Except IOError Unit

/-- `SqlSplitter::split_file`: create the output directory, read the input,
tokenize, plan batches with budget `max_size_kb * 1024`, then write every
batch, propagating the first write error (`buffer_unordered`'s completion
order is abstracted to index order) and otherwise returning the file count. -/
def splitFile (env : FsEnv) (maxSizeKb : Nat) : Except IOError Nat := do
  let _ ← env.createDirAll
  let content ← env.readToString
  let statements := splitStatements content.data
  let batches := planBatches statements (maxSizeKb * 1024)
  (List.range batches.length).foldlM (fun n i => do
    let _ ← env.writeFile i
    pure (n + 1)) 0

/-- Observable outcome of one run of `main`: the lines printed to stdout
and stderr, and the process exit code. -/
structure MainResult where
  stdout : List String
  stderr : List String
  exitCode : Nat
deriving DecidableEq

/-- `main` (lines 164-183): print the start line, run `split_file`, print
the summary on success or the error on stderr on failure, and return
`Ok(())` in both branches — so the process exit code is 0 either way.
`elapsed` stands for the formatted wall-clock duration. -/
def runMain (res : Except IOError Nat) (elapsed : String) : MainResult :=
  match res with
  | Except.ok n =>
    { stdout := ["Starting to split SQL file...",
                 "Successfully split SQL file into " ++ toString n ++ " files",
                 "Time taken: " ++ elapsed],
      stderr := [],
      exitCode := 0 }
  | Except.error e =>
    { stdout := ["Starting to split SQL file..."],
      stderr := ["Error splitting file: " ++ e.msg],
      exitCode := 0 }

/-- Accumulator for the number of backslashes consumed since the most
recently consumed quote character. -/
def escStep (n : Nat) (c : Char) : Nat :=
  if c = '\'' then 0 else if c = '\\' then n + 1 else n

/-- Number of backslashes consumed since the most recent quote. -/
def escCount (l : List Char) : Nat := l.foldl escStep 0

/-- Invariant of the tokenizer loop after consuming `consumed`: every
emitted statement is non-empty and trimmed, and the emitted statements
followed by the buffer form a subsequence of the consumed input. -/
def TokInv (consumed : List Char) (st : TokState) : Prop :=
  (∀ s ∈ st.stmts, s ≠ [] ∧ trimChars s = s) ∧
  (st.stmts.flatten ++ st.buf).Sublist consumed

/-- Invariant of the planner loop after consuming `consumed`: the
accumulated size is the accounted size of the current batch, the closed
batches followed by the current batch hold exactly the trimmed consumed
statements in order, every closed batch is non-empty, and any batch (closed
or current) whose accounted size exceeds the budget is a singleton. -/
def PlanInv (maxSize : Nat) (consumed : List (List Char)) (st : PlanState) :
    Prop :=
  st.curSize = planSize st.cur ∧
  st.batches.flatten ++ st.cur = consumed.map trimChars ∧
  (∀ b ∈ st.batches, b ≠ [] ∧ (maxSize < planSize b → ∃ s, b = [s])) ∧
  (maxSize < planSize st.cur → ∃ s, st.cur = [s])

/-- A run of `split_file` in which `create_dir_all` succeeds and
`read_to_string` fails as it does for a missing input file. -/
def envMissingInput : FsEnv :=
  { createDirAll := Except.ok ()
  , readToString := Except.error ⟨"No such file or directory (os error 2)"⟩
  , writeFile := fun _ => Except.ok () }

/-! ### Helper lemmas about `trimChars` -/

theorem dropWhile_head_not (p : Char → Bool) (l : List Char) (a : Char)
    (h : (List.dropWhile p l).head? = some a) : p a = false := by
  have := List.head?_dropWhile_not p l
  rw [h] at this
  exact this

theorem dropWhile_dropWhile (p : Char → Bool) (l : List Char) :
    List.dropWhile p (List.dropWhile p l) = List.dropWhile p l := by
  cases h : List.dropWhile p l with
  | nil => simp
  | cons a t =>
    have ha : p a = false := dropWhile_head_not p l a (by rw [h]; rfl)
    simp [List.dropWhile_cons, ha]

theorem trimChars_sublist (l : List Char) : (trimChars l).Sublist l := by
  unfold trimChars
  set p := isRustWhitespace
  set x := List.dropWhile p l with hx
  have h1 : (List.dropWhile p x.reverse).Sublist x.reverse :=
    (List.dropWhile_suffix p).sublist
  have h2 : ((List.dropWhile p x.reverse).reverse).Sublist x := by
    simpa using List.reverse_sublist.mpr h1
  exact h2.trans ((List.dropWhile_suffix p).sublist)

theorem trimChars_idem (l : List Char) :
    trimChars (trimChars l) = trimChars l := by
  set p := isRustWhitespace with hp
  set x := List.dropWhile p l with hx
  set y := List.dropWhile p x.reverse with hy
  have hr : trimChars l = y.reverse := rfl
  have hdy : List.dropWhile p y.reverse = y.reverse := by
    cases hcase : y.reverse with
    | nil => simp
    | cons a t =>
      have hhead : y.reverse.head? = some a := by rw [hcase]; rfl
      have hlast : y.getLast? = some a := by
        rw [← List.head?_reverse]; exact hhead
      obtain ⟨u, hu⟩ := List.dropWhile_suffix (l := x.reverse) p
      have hylast : (u ++ y).getLast? = some a := by
        rw [List.getLast?_append, hlast]; rfl
      have hxr : x.reverse.getLast? = some a := by rw [← hu, ← hy]; exact hylast
      have hxhead : x.head? = some a := by
        rw [← List.getLast?_reverse]; exact hxr
      have hpa : p a = false := dropWhile_head_not p l a (by rw [← hx]; exact hxhead)
      simp [List.dropWhile_cons, hpa]
  rw [hr]
  show ((List.dropWhile p y.reverse).reverse.dropWhile p).reverse = y.reverse
  rw [hdy, List.reverse_reverse, hy, dropWhile_dropWhile]

theorem utf8Len_append (l₁ l₂ : List Char) :
    utf8Len (l₁ ++ l₂) = utf8Len l₁ + utf8Len l₂ := by
  simp [utf8Len, List.sum_append]

/-! ### Tokenizer invariant: emitted statements are trimmed, non-empty,
and their concatenation is a subsequence of the input -/

theorem tokInv_init : TokInv [] ⟨[], [], false, false⟩ := by
  constructor
  · intro s hs; cases hs
  · simp

theorem sublist_snoc_of_sublist {l m : List Char} (c : Char)
    (h : l.Sublist m) : l.Sublist (m ++ [c]) :=
  h.trans (List.sublist_append_left m [c])

theorem tokStep_inv {consumed : List Char} {st : TokState} (c : Char)
    (h : TokInv consumed st) : TokInv (consumed ++ [c]) (tokStep st c) := by
  obtain ⟨h1, h2⟩ := h
  unfold tokStep
  split
  · exact ⟨h1, by
      rw [← List.append_assoc]
      exact h2.append (List.Sublist.refl [c])⟩
  · split
    · exact ⟨h1, by
        rw [← List.append_assoc]
        exact h2.append (List.Sublist.refl [c])⟩
    · split
      · constructor
        · intro s hs
          rcases List.mem_append.mp hs with hs | hs
          · exact h1 s hs
          · split at hs
            · cases hs
            · rename_i hne
              rcases List.mem_singleton.mp hs with rfl
              refine ⟨?_, trimChars_idem st.buf⟩
              intro hnil
              rw [hnil] at hne
              simp at hne
        · have hbase : ((st.stmts ++
              (if (trimChars st.buf).isEmpty then [] else [trimChars st.buf])).flatten
              ++ []).Sublist consumed := by
            rw [List.append_nil, List.flatten_append]
            split
            · simp only [List.flatten_nil, List.append_nil]
              exact (List.sublist_append_left st.stmts.flatten st.buf).trans h2
            · simp only [List.flatten_cons, List.flatten_nil, List.append_nil]
              exact ((List.Sublist.refl st.stmts.flatten).append
                (trimChars_sublist st.buf)).trans h2
          exact sublist_snoc_of_sublist c hbase
      · exact ⟨h1, by
          rw [← List.append_assoc]
          exact h2.append (List.Sublist.refl [c])⟩

theorem tokFold_inv (l : List Char) :
    ∀ (pre : List Char) (st : TokState), TokInv pre st →
      TokInv (pre ++ l) (l.foldl tokStep st) := by
  induction l with
  | nil => intro pre st h; simpa using h
  | cons c rest ih =>
    intro pre st h
    have h' := tokStep_inv c h
    have := ih (pre ++ [c]) (tokStep st c) h'
    simpa [List.append_assoc] using this

theorem tokRun_inv (l : List Char) : TokInv l (tokRun l) := by
  have := tokFold_inv l [] ⟨[], [], false, false⟩ tokInv_init
  simpa [tokRun] using this

theorem splitStatements_trimmed (l : List Char) :
    ∀ s ∈ splitStatements l, s ≠ [] ∧ trimChars s = s := by
  obtain ⟨h1, _⟩ := tokRun_inv l
  intro s hs
  unfold splitStatements at hs
  rcases List.mem_append.mp hs with hs | hs
  · exact h1 s hs
  · split at hs
    · cases hs
    · rename_i hne
      rcases List.mem_singleton.mp hs with rfl
      refine ⟨?_, trimChars_idem _⟩
      intro hnil
      rw [hnil] at hne
      simp at hne

theorem splitStatements_flatten_sublist (l : List Char) :
    (splitStatements l).flatten.Sublist l := by
  obtain ⟨_, h2⟩ := tokRun_inv l
  unfold splitStatements
  rw [List.flatten_append]
  split
  · simp only [List.flatten_nil, List.append_nil]
    exact (List.sublist_append_left (tokRun l).stmts.flatten (tokRun l).buf).trans h2
  · simp only [List.flatten_cons, List.flatten_nil, List.append_nil]
    exact ((List.Sublist.refl (tokRun l).stmts.flatten).append
      (trimChars_sublist (tokRun l).buf)).trans h2

/-! ### The true semantics of `escape_next`: backslash parity since the
last quote -/

theorem tokStep_escape (st : TokState) (c : Char) (n : Nat)
    (h : st.escapeNext = (st.inString && (n % 2 == 1))) :
    (tokStep st c).escapeNext =
      ((tokStep st c).inString && (escStep n c % 2 == 1)) := by
  obtain ⟨ss, sb, si, se⟩ := st
  simp only at h
  by_cases hb : c = '\\'
  · subst hb
    cases si with
    | false =>
      have hse : se = false := by simpa using h
      subst hse
      simp [tokStep, escStep]
    | true =>
      simp only [Bool.true_and] at h
      subst h
      simp only [tokStep, escStep]
      rcases Nat.mod_two_eq_zero_or_one n with h2 | h2 <;>
        simp [h2, Nat.add_mod]
  · by_cases hq : c = '\''
    · subst hq
      cases se with
      | false => simp [tokStep, escStep]
      | true => simp [tokStep, escStep]
    · by_cases hsemi : c = ';'
      · subst hsemi
        cases si with
        | false =>
          have hse : se = false := by simpa using h
          subst hse
          simp [tokStep, escStep]
        | true =>
          simp only [Bool.true_and] at h
          subst h
          simp [tokStep, escStep]
      · simp [tokStep, escStep, hb, hq, hsemi, h]

theorem tokFold_escape (l : List Char) :
    ∀ (st : TokState) (n : Nat), st.escapeNext = (st.inString && (n % 2 == 1)) →
      (l.foldl tokStep st).escapeNext =
        ((l.foldl tokStep st).inString && ((l.foldl escStep n) % 2 == 1)) := by
  induction l with
  | nil => intro st n h; simpa using h
  | cons c rest ih => intro st n h; exact ih _ _ (tokStep_escape st c n h)

theorem tokRun_escape (l : List Char) :
    (tokRun l).escapeNext = ((tokRun l).inString && (escCount l % 2 == 1)) :=
  tokFold_escape l ⟨[], [], false, false⟩ 0 (by simp)

/-! ### Planner invariant -/

theorem planInv_init (maxSize : Nat) : PlanInv maxSize [] ⟨[], [], 0⟩ := by
  refine ⟨rfl, by simp, ?_, ?_⟩
  · intro b hb; cases hb
  · intro hlt; simp [planSize] at hlt

theorem planSize_append (b₁ b₂ : List (List Char)) :
    planSize (b₁ ++ b₂) = planSize b₁ + planSize b₂ := by
  simp [planSize, List.sum_append]

theorem planStep_inv {maxSize : Nat} {consumed : List (List Char)}
    {st : PlanState} (stmt : List Char) (h : PlanInv maxSize consumed st) :
    PlanInv maxSize (consumed ++ [stmt]) (planStep maxSize st stmt) := by
  obtain ⟨h1, h2, h3, h4⟩ := h
  unfold planStep
  dsimp only
  split
  · rename_i hcond
    rw [Bool.and_eq_true, decide_eq_true_eq] at hcond
    obtain ⟨hlt, hcur⟩ := hcond
    refine ⟨?_, ?_, ?_, ?_⟩
    · simp [planSize, stmtSize]
    · simp only [List.flatten_append, List.flatten_cons, List.flatten_nil,
        List.append_nil, List.map_append, List.nil_append, List.map_cons,
        List.map_nil]
      rw [h2]
    · intro b hb
      rcases List.mem_append.mp hb with hb | hb
      · exact h3 b hb
      · rcases List.mem_singleton.mp hb with rfl
        refine ⟨?_, h4⟩
        intro hnil
        rw [hnil] at hcur
        simp at hcur
    · intro _
      exact ⟨trimChars stmt, rfl⟩
  · rename_i hcond
    rw [Bool.and_eq_true, not_and_or, decide_eq_true_eq] at hcond
    refine ⟨?_, ?_, ?_, ?_⟩
    · rw [h1, planSize_append]
      simp [planSize, stmtSize]
    · rw [← List.append_assoc, h2, List.map_append]
      rfl
    · exact h3
    · intro hlt
      rcases hcond with hle | hemp

      · exfalso
        rw [planSize_append, ← h1] at hlt
        have hps : planSize [trimChars stmt] = utf8Len (trimChars stmt) + 1 := by
          simp [planSize, stmtSize]
        rw [hps] at hlt
        exact hle hlt
      · have hnil : st.cur = [] := by simpa using hemp
        rw [hnil]
        exact ⟨trimChars stmt, rfl⟩

theorem planFold_inv (stmts : List (List Char)) (maxSize : Nat) :
    ∀ (pre : List (List Char)) (st : PlanState), PlanInv maxSize pre st →
      PlanInv maxSize (pre ++ stmts) (stmts.foldl (planStep maxSize) st) := by
  induction stmts with
  | nil => intro pre st h; simpa using h
  | cons s rest ih =>
    intro pre st h
    have := ih (pre ++ [s]) (planStep maxSize st s) (planStep_inv s h)
    simpa [List.append_assoc] using this

theorem planBatches_inv (stmts : List (List Char)) (maxSize : Nat) :
    ((planBatches stmts maxSize).flatten = stmts.map trimChars) ∧
    (∀ b ∈ planBatches stmts maxSize,
      b ≠ [] ∧ (maxSize < planSize b → ∃ s, b = [s])) := by
  have h := planFold_inv stmts maxSize [] ⟨[], [], 0⟩ (planInv_init maxSize)
  simp only [List.nil_append] at h
  obtain ⟨_, h2, h3, h4⟩ := h
  unfold planBatches planFinalize
  split
  · rename_i hemp
    have hcur : (stmts.foldl (planStep maxSize) ⟨[], [], 0⟩).cur = [] := by
      simpa using hemp
    constructor
    · rw [← h2, hcur, List.append_nil]
    · exact h3
  · rename_i hemp
    have hcur : (stmts.foldl (planStep maxSize) ⟨[], [], 0⟩).cur ≠ [] := by
      simpa using hemp
    constructor
    · rw [← h2, List.flatten_append]
      simp
    · intro b hb
      rcases List.mem_append.mp hb with hb | hb
      · exact h3 b hb
      · rcases List.mem_singleton.mp hb with rfl
        exact ⟨hcur, h4⟩

theorem stmtSize_le_planSize {b : List (List Char)} {s : List Char}
    (hs : s ∈ b) : stmtSize s ≤ planSize b := by
  have hm : stmtSize s ∈ b.map stmtSize := List.mem_map_of_mem _ hs
  exact List.single_le_sum (fun x _ => Nat.zero_le x) _ hm

theorem planBatches_oversized_alone (stmts : List (List Char)) (maxSize : Nat) :
    ∀ b ∈ planBatches stmts maxSize, ∀ s ∈ b, maxSize < utf8Len s → b = [s] := by
  intro b hb s hs hover
  obtain ⟨_, hgood⟩ := (planBatches_inv stmts maxSize).2 b hb
  have h1 : maxSize < planSize b :=
    Nat.lt_of_lt_of_le (Nat.lt_of_lt_of_le hover (Nat.le_succ _))
      (stmtSize_le_planSize hs)
  obtain ⟨t, rfl⟩ := hgood h1
  rcases List.mem_singleton.mp hs with rfl
  rfl

theorem plan0_aux (l : List (List Char)) :
    ∀ (bs : List (List (List Char))) (s0 : List Char) (k : Nat),
      planFinalize (l.foldl (planStep 0) ⟨bs, [s0], k⟩) =
        bs ++ [[s0]] ++ l.map (fun s => [trimChars s]) := by
  induction l with
  | nil => intro bs s0 k; simp [planFinalize]
  | cons s1 rest ih =>
    intro bs s0 k
    have hstep : planStep 0 ⟨bs, [s0], k⟩ s1 =
        ⟨bs ++ [[s0]], [trimChars s1], 0 + (utf8Len (trimChars s1) + 1)⟩ := by
      unfold planStep
      dsimp only
      rw [if_pos]
      · rfl
      · simp
    rw [List.foldl_cons, hstep, ih]
    simp

theorem planBatches_zero (stmts : List (List Char)) :
    planBatches stmts 0 = stmts.map (fun s => [trimChars s]) := by
  cases stmts with
  | nil => rfl
  | cons s rest =>
    unfold planBatches
    rw [List.foldl_cons]
    have hstep : planStep 0 ⟨[], [], 0⟩ s =
        ⟨[], [trimChars s], 0 + (utf8Len (trimChars s) + 1)⟩ := by
      unfold planStep
      dsimp only
      rw [if_neg]
      · rfl
      · simp
    rw [hstep, plan0_aux]
    simp

theorem utf8Len_cons (c : Char) (l : List Char) :
    utf8Len (c :: l) = c.utf8Size + utf8Len l := by
  simp [utf8Len]

theorem utf8Len_serializeBatch (b : List (List Char)) :
    utf8Len (serializeBatch b) = planSize b + 2 * (b.length - 1) := by
  induction b with
  | nil => simp [serializeBatch, planSize, utf8Len]
  | cons s rest ih =>
    cases rest with
    | nil =>
      have hsemi : (';' : Char).utf8Size = 1 := rfl
      simp [serializeBatch, planSize, stmtSize, utf8Len_append, utf8Len, hsemi]
    | cons r rs =>
      have hsemi : (';' : Char).utf8Size = 1 := rfl
      have hnl : ('\n' : Char).utf8Size = 1 := rfl
      show utf8Len (s ++ ';' :: '\n' :: '\n' :: serializeBatch (r :: rs)) = _
      rw [utf8Len_append, utf8Len_cons, utf8Len_cons, utf8Len_cons, hsemi, hnl,
        ih]
      simp only [planSize, List.map_cons, List.sum_cons, stmtSize,
        List.length_cons]
      simp only [planSize, stmtSize] at ih ⊢
      omega

theorem splitFile_createDir_error (env : FsEnv) (k : Nat) (e : IOError)
    (h : env.createDirAll = Except.error e) :
    splitFile env k = Except.error e := by
  simp [splitFile, h, Bind.bind, Except.bind]

theorem splitFile_read_error (env : FsEnv) (k : Nat) (e : IOError)
    (h1 : env.createDirAll = Except.ok ())
    (h2 : env.readToString = Except.error e) :
    splitFile env k = Except.error e := by
  simp [splitFile, h1, h2, Bind.bind, Except.bind]

theorem planBatches_size_bound (stmts : List (List Char)) (maxSize : Nat) :
    ∀ b ∈ planBatches stmts maxSize,
      planSize b ≤ maxSize ∨ ∃ s, b = [s] ∧ maxSize < stmtSize s := by
  intro b hb
  obtain ⟨_, hgood⟩ := (planBatches_inv stmts maxSize).2 b hb
  by_cases hle : planSize b ≤ maxSize
  · exact Or.inl hle
  · right
    have hlt : maxSize < planSize b := Nat.lt_of_not_le hle
    obtain ⟨s, rfl⟩ := hgood hlt
    refine ⟨s, rfl, ?_⟩
    simpa [planSize, stmtSize] using hlt

/-! ### Claim theorems -/

/-- C1: for every statement sequence and every `max_bytes`, every batch
produced by the batch planner has accounted serialized size (the sum over
its statements of byte length + 1 for the terminator) at most `max_bytes`,
except possibly a batch consisting of a single oversized statement — one
whose own serialized size `byte length + 1` exceeds the budget. -/
theorem C1_batch_size_bound (stmts : List (List Char)) (maxSize : Nat)
    (b : List (List Char)) (hb : b ∈ planBatches stmts maxSize) :
    planSize b ≤ maxSize ∨ ∃ s, b = [s] ∧ maxSize < stmtSize s :=
  planBatches_size_bound stmts maxSize b hb

theorem C1_witness :
    planSize [['a', 'a']] ≤ 1 ∨ ∃ s, [['a', 'a']] = [s] ∧ 1 < stmtSize s :=
  C1_batch_size_bound [['a', 'a']] 1 [['a', 'a']] (by decide)

/-- C2: for every sequence of statements (trimmed strings, as the data
model's Statement invariant and the tokenizer guarantee) and every
`max_bytes`, concatenating the planner's batches in plan order yields
exactly the original statement sequence — same statements, same order,
none duplicated, dropped, or altered. -/
theorem C2_order_preservation (stmts : List (List Char)) (maxSize : Nat)
    (h : ∀ s ∈ stmts, trimChars s = s) :
    (planBatches stmts maxSize).flatten = stmts := by
  rw [(planBatches_inv stmts maxSize).1]
  calc stmts.map trimChars = stmts.map id := List.map_congr_left h
  _ = stmts := List.map_id stmts

theorem C2_witness :
    (planBatches [['a'], ['b', 'b']] 3).flatten = [['a'], ['b', 'b']] :=
  C2_order_preservation [['a'], ['b', 'b']] 3 (by decide)

/-- C3 counterexample: a run in which reading the input file fails (missing
input file) makes `split_file` return the error, yet the process exit code
is 0, refuting the claim's "exits with a non-zero exit code". -/
theorem C3_counterexample :
    splitFile envMissingInput 1000 =
      Except.error ⟨"No such file or directory (os error 2)"⟩ ∧
    (runMain (splitFile envMissingInput 1000) "1.00s").exitCode = 0 :=
  ⟨rfl, rfl⟩

/-- C3 amended: on failure of the split operation the underlying I/O error
propagates unmodified to the top level, where the program prints an error
message to the error stream — but the process exits with code 0, because
`main` returns `Ok(())` in the error branch as well. -/
theorem C3_error_handling (env : FsEnv) (k : Nat) (e : IOError)
    (elapsed : String)
    (h : env.createDirAll = Except.error e ∨
      (env.createDirAll = Except.ok () ∧ env.readToString = Except.error e)) :
    splitFile env k = Except.error e ∧
    (runMain (splitFile env k) elapsed).stderr =
      ["Error splitting file: " ++ e.msg] ∧
    (runMain (splitFile env k) elapsed).exitCode = 0 := by
  have hsf : splitFile env k = Except.error e := by
    rcases h with h | ⟨h1, h2⟩
    · exact splitFile_createDir_error env k e h
    · exact splitFile_read_error env k e h1 h2
  rw [hsf]
  exact ⟨rfl, rfl, rfl⟩

theorem C3_witness :
    splitFile envMissingInput 7 =
      Except.error ⟨"No such file or directory (os error 2)"⟩ ∧
    (runMain (splitFile envMissingInput 7) "42ms").stderr =
      ["Error splitting file: " ++
        (⟨"No such file or directory (os error 2)"⟩ : IOError).msg] ∧
    (runMain (splitFile envMissingInput 7) "42ms").exitCode = 0 :=
  C3_error_handling envMissingInput 7
    ⟨"No such file or directory (os error 2)"⟩ "42ms" (Or.inr ⟨rfl, rfl⟩)

/-- C4: a semicolon inside a single-quoted string literal never closes a
statement — scanning `;` while `in_string` holds only appends it to the
buffer and emits nothing; in particular the input
`"SELECT 'a;b'; SELECT 2;"` tokenizes to exactly 2 statements, the first
being `SELECT 'a;b'`. -/
theorem C4_string_literal_immunity :
    (∀ st : TokState, st.inString = true →
      tokStep st ';' = { st with buf := st.buf ++ [';'] }) ∧
    splitStatementsStr "SELECT 'a;b'; SELECT 2;" =
      ["SELECT 'a;b'", "SELECT 2"] := by
  constructor
  · intro st h
    simp [tokStep, h]
  · rfl

theorem C4_witness :
    tokStep ⟨[], ['a'], true, false⟩ ';' = ⟨[], ['a', ';'], true, false⟩ ∧
    splitStatementsStr "SELECT 'a;b'; SELECT 2;" =
      ["SELECT 'a;b'", "SELECT 2"] :=
  ⟨C4_string_literal_immunity.1 ⟨[], ['a'], true, false⟩ rfl,
   C4_string_literal_immunity.2⟩

/-- C5: a backslash-escaped quote inside a single-quoted literal does not
terminate the literal: the input `"SELECT 'it\'s ok'; SELECT 2;"`
(backslash before the inner quote) tokenizes to exactly 2 statements. -/
theorem C5_escape_handling :
    splitStatementsStr "SELECT 'it\\'s ok'; SELECT 2;" =
      ["SELECT 'it\\'s ok'", "SELECT 2"] ∧
    (splitStatementsStr "SELECT 'it\\'s ok'; SELECT 2;").length = 2 :=
  ⟨rfl, rfl⟩

/-- C6 counterexample: with `max_bytes = 2`, the single statement `aa` has
byte length 2, which does not exceed `max_bytes`, yet its batch has
accounted serialized size 3, exceeding the budget — so batches holding one
statement of byte length > `max_bytes` are not the only batches whose size
may exceed the budget. -/
theorem C6_counterexample :
    planBatches [['a', 'a']] 2 = [[['a', 'a']]] ∧
    2 < planSize [['a', 'a']] ∧ ¬ 2 < utf8Len ['a', 'a'] := by
  decide

/-- C6 amended: for every sequence of (trimmed) statements, each statement
whose byte length exceeds `max_bytes` is emitted whole — the plan's batches
concatenate back to the unaltered statements — as the sole member of its
own batch; and every batch whose accounted size exceeds the budget is a
singleton whose statement has byte length + 1 exceeding `max_bytes` (byte
length ≥ `max_bytes`, not necessarily > `max_bytes`). -/
theorem C6_oversized_policy (stmts : List (List Char)) (maxSize : Nat)
    (h : ∀ s ∈ stmts, trimChars s = s) :
    (planBatches stmts maxSize).flatten = stmts ∧
    (∀ b ∈ planBatches stmts maxSize, ∀ s ∈ b,
      maxSize < utf8Len s → b = [s]) ∧
    (∀ b ∈ planBatches stmts maxSize, maxSize < planSize b →
      ∃ s, b = [s] ∧ maxSize < utf8Len s + 1) := by
  refine ⟨?_, planBatches_oversized_alone stmts maxSize, ?_⟩
  · rw [(planBatches_inv stmts maxSize).1]
    calc stmts.map trimChars = stmts.map id := List.map_congr_left h
    _ = stmts := List.map_id stmts
  · intro b hb hlt
    obtain ⟨_, hgood⟩ := (planBatches_inv stmts maxSize).2 b hb
    obtain ⟨s, rfl⟩ := hgood hlt
    refine ⟨s, rfl, ?_⟩
    simpa [planSize, stmtSize] using hlt

theorem C6_witness :
    (planBatches [['a', 'a', 'a']] 2).flatten = [['a', 'a', 'a']] ∧
    (∀ b ∈ planBatches [['a', 'a', 'a']] 2, ∀ s ∈ b,
      2 < utf8Len s → b = [s]) ∧
    (∀ b ∈ planBatches [['a', 'a', 'a']] 2, 2 < planSize b →
      ∃ s, b = [s] ∧ 2 < utf8Len s + 1) :=
  C6_oversized_policy [['a', 'a', 'a']] 2 (by decide)

/-- C7 counterexample: with `max_bytes = 4` the planner packs `a` and `b`
into one batch (accounted size 2 + 2 = 4 ≤ 4), but its serialization
`a;\n\nb;` is 6 bytes — the separator-inclusive serialized size exceeds
`max_bytes` although no single statement is oversized. -/
theorem C7_counterexample :
    planBatches [['a'], ['b']] 4 = [[['a'], ['b']]] ∧
    4 < utf8Len (serializeBatch [['a'], ['b']]) := by
  decide

/-- C7 amended: the size the planner bounds is the accounted size — the sum
of statement byte lengths + 1 per terminator, NOT counting the blank-line
separator bytes the writer adds. Every batch's actual serialized byte size
equals its accounted size plus 2 bytes per statement beyond the first, and
the accounted size (not the serialized size) is ≤ `max_bytes` except for a
single statement whose accounted size alone exceeds the budget. -/
theorem C7_serialized_size (stmts : List (List Char)) (maxSize : Nat)
    (b : List (List Char)) (hb : b ∈ planBatches stmts maxSize) :
    utf8Len (serializeBatch b) = planSize b + 2 * (b.length - 1) ∧
    (planSize b ≤ maxSize ∨ ∃ s, b = [s] ∧ maxSize < stmtSize s) :=
  ⟨utf8Len_serializeBatch b, planBatches_size_bound stmts maxSize b hb⟩

theorem C7_witness :
    utf8Len (serializeBatch [['a'], ['b']]) =
      planSize [['a'], ['b']] + 2 * ([['a'], ['b']].length - 1) ∧
    (planSize [['a'], ['b']] ≤ 4 ∨
      ∃ s, [['a'], ['b']] = [s] ∧ 4 < stmtSize s) :=
  C7_serialized_size [['a'], ['b']] 4 [['a'], ['b']] (by decide)

/-- C8: planning any non-empty sequence of (trimmed) statements with
`max_bytes = 0` produces one batch per statement, every statement the sole
member of its own (oversized) batch; the planner is a total function, so it
cannot fail. -/
theorem C8_zero_budget (stmts : List (List Char)) (_h0 : stmts ≠ [])
    (h : ∀ s ∈ stmts, trimChars s = s) :
    planBatches stmts 0 = stmts.map fun s => [s] := by
  rw [planBatches_zero]
  exact List.map_congr_left fun s hs => by rw [h s hs]

theorem C8_witness :
    planBatches [['a'], ['b', 'b']] 0 = [['a'], ['b', 'b']].map fun s => [s] :=
  C8_zero_budget [['a'], ['b', 'b']] (by decide) (by decide)

/-- C9 counterexample: on the input `'a;` — an unterminated single-quoted
literal containing a semicolon, flushed at end of input — the tokenizer
emits the single statement `'a;`, whose last character is a semicolon,
refuting "has no trailing semicolon". -/
theorem C9_counterexample :
    splitStatements ['\'', 'a', ';'] = [['\'', 'a', ';']] ∧
    (['\'', 'a', ';']).getLast? = some ';' := by
  decide

/-- C9 amended: for every input text, every statement returned by the
tokenizer is non-empty and equal to its own whitespace-trim, and the
statements appear in source order (their concatenation is a subsequence of
the input); a statement can, however, end with a semicolon when that
semicolon was consumed inside a string literal (e.g. an unterminated
literal flushed at end of input). -/
theorem C9_statement_invariants (l : List Char) :
    (∀ s ∈ splitStatements l, s ≠ [] ∧ trimChars s = s) ∧
    (splitStatements l).flatten.Sublist l :=
  ⟨splitStatements_trimmed l, splitStatements_flatten_sublist l⟩

theorem C9_witness :
    ((∀ s ∈ splitStatements ['a', ';'], s ≠ [] ∧ trimChars s = s) ∧
      (splitStatements ['a', ';']).flatten.Sublist ['a', ';']) ∧
    (['a'] ≠ [] ∧ trimChars ['a'] = ['a']) :=
  ⟨C9_statement_invariants ['a', ';'],
   (C9_statement_invariants ['a', ';']).1 ['a'] (by decide)⟩

/-- C10 counterexample: scanning the input `'\a` (quote, backslash, `a`)
leaves `escape_next = true` although the most recently consumed character
is `a`, not a backslash — the flag is not cleared by ordinary characters. -/
theorem C10_counterexample :
    (tokRun ['\'', '\\', 'a']).escapeNext = true ∧
    (['\'', '\\', 'a']).getLast? = some 'a' ∧ ('a' : Char) ≠ '\\' := by
  decide

/-- C10 amended: throughout the scan, `escape_next` equals "inside a
single-quoted literal AND an odd number of backslashes consumed since the
most recently consumed quote": it is toggled by each backslash inside a
literal, reset by a quote, and left unchanged by every other character —
it does not mean "the previous character was a backslash". -/
theorem C10_escape_next_semantics (l : List Char) :
    (tokRun l).escapeNext = ((tokRun l).inString && (escCount l % 2 == 1)) :=
  tokRun_escape l

theorem C10_witness :
    (tokRun ['\'', '\\']).escapeNext =
      ((tokRun ['\'', '\\']).inString && (escCount ['\'', '\\'] % 2 == 1)) :=
  C10_escape_next_semantics ['\'', '\\']

end SqlSplitter
